import Mathlib

/-!
A verification development for `minimake` (src/minimake.c), a minimal
make-style build tool.  The C code is embedded shallowly:

* C strings and `mm_sv` string views become `List Char` (the span's bytes);
  machine sizes become `Nat`, file modification times become `Int` seconds.
* The growable arrays (token buffer, rule table, dependency chain) become
  Lean lists; their reallocation logic only resizes storage and is not part
  of the observable behaviour, so it is not modelled.  The fixed per-rule
  arrays (`dependencies[64]`, `commands[32]`) are modelled as lists together
  with the exact counter checks the parser performs.
* Reads of zero-initialized array slack (the parser reads `tokens[i]` at
  `i = n_tokens`, which is zeroed memory for the allocated capacity) are
  modelled by a zero token / zero rule default.
* A scanning loop that would read past the end of the allocation
  (undefined behaviour in C) makes the modelled function return `none`.
* External collaborators are parameters: `fs : List Char → Option Int`
  models `stat` (`none` = ENOENT, `some t` = exists with mtime `t`;
  commands are modelled as not changing this view), and
  `shell : List Char → Int` models `system` (exit status of a command
  line).  Functions that run commands additionally return the list of
  command lines handed to the shell, in order, as instrumentation.
-/

/-- The NUL byte terminating C strings. -/
def mm_nul : Char := Char.ofNat 0

/-- A C-string buffer as handed to the core by the file reader: the bytes
followed by the NUL terminator (`minimake_read_makefile` allocates
`size + 1` bytes and zeroes them before reading). -/
def cstr (s : String) : List Char := s.data ++ [mm_nul]

/-- `minimake_token_type` from minimake.c (WORD = 0, COLON, NEWLINE, COMMAND). -/
inductive minimake_token_type where
  | word
  | colon
  | newline
  | command
deriving DecidableEq

/-- `minimake_token`: the span's bytes (`start`/`end` in C), its type and the
recorded 1-based line and column of its first byte. -/
structure minimake_token where
  text : List Char
  type : minimake_token_type
  line : Nat
  column : Nat
deriving DecidableEq

/-- A zero-initialized `minimake_token` (type 0 is WORD, line 0 marks the
"no token here" state that the error printer treats as end of file). -/
def minimake_token_zero : minimake_token :=
  { text := [], type := minimake_token_type.word, line := 0, column := 0 }

/-- Characters ending a WORD token: `while (*p && *p != ' ' && *p != '\t'
&& *p != '\n' && *p != ':')` in `minimake_tokenize`. -/
def mm_word_delim (c : Char) : Bool :=
  c = mm_nul || c = ' ' || c = '\t' || c = '\n' || c = ':'

/-- Number of characters the WORD scan consumes from the current position;
`none` if the scan would run past the end of the buffer (undefined
behaviour in C). -/
def scanWord : List Char → Option Nat
  | [] => none
  | c :: cs => if mm_word_delim c then some 0 else (scanWord cs).map (fun n => n + 1)

/-- Number of characters the COMMAND scan consumes: `while (*p != '\n')`.
Note this loop does not stop at NUL, so it crosses embedded NUL bytes;
`none` if no newline remains in the buffer (the C loop would read past
the end of the allocation). -/
def scanCmd : List Char → Option Nat
  | [] => none
  | c :: cs => if c = '\n' then some 0 else (scanCmd cs).map (fun n => n + 1)

/-- Number of characters the comment skip consumes:
`while (*p && *p != '\n')`. -/
def scanComment : List Char → Option Nat
  | [] => none
  | c :: cs => if c = mm_nul || c = '\n' then some 0 else (scanComment cs).map (fun n => n + 1)

/-- The scanning loop of `minimake_tokenize` (minimake.c lines 165-233),
one constructor case per character class, with the exact line/column
bookkeeping of the C code (including its quirks, e.g. the column drift of
the command branch).  `rem` is the buffer suffix at the current pointer;
the fuel argument only bounds the recursion and is always sufficient
because every iteration consumes at least one character. -/
def tokenizeLoop : Nat → List Char → Nat → Nat → List minimake_token → Option (List minimake_token)
  | 0, _, _, _, _ => none
  | Nat.succ fuel, rem, l, c, acc =>
    match rem with
    | [] => none
    | ch :: rest =>
      if ch = mm_nul then some acc
      else if ch = '\n' then
        tokenizeLoop fuel rest (l + 1) 1
          (acc ++ [{ text := ['\n'], type := minimake_token_type.newline, line := l, column := c }])
      else if ch = ':' then
        tokenizeLoop fuel rest l (c + 1)
          (acc ++ [{ text := [':'], type := minimake_token_type.colon, line := l, column := c }])
      else if ch = '#' then
        match scanComment rem with
        | none => none
        | some k =>
          if rem.getD k mm_nul = '\n' then
            tokenizeLoop fuel (rem.drop k) l (c + k) acc
          else
            tokenizeLoop fuel (rem.drop (k + 1)) l (c + k) acc
      else if ch = ' ' then tokenizeLoop fuel rest l (c + 1) acc
      else if ch = '\t' then
        match scanCmd rem with
        | none => none
        | some k =>
          tokenizeLoop fuel (rem.drop k) l (c + 1 + k)
            (acc ++ [{ text := (rem.drop 1).take (k - 1), type := minimake_token_type.command,
                       line := l, column := c }])
      else
        match scanWord rem with
        | none => none
        | some k =>
          tokenizeLoop fuel (rem.drop k) l (c + k)
            (acc ++ [{ text := rem.take k, type := minimake_token_type.word, line := l, column := c }])

/-- `minimake_tokenize` (minimake.c lines 139-240).  The `size` parameter
is accepted and, exactly as in the C function, never consulted: the scan
is driven by the buffer's bytes alone. -/
def minimake_tokenize (buffer : List Char) (size : Nat) : Option (List minimake_token) :=
  tokenizeLoop (buffer.length + 1) buffer 1 1 []

/-- `minimake_result` from minimake.c. -/
structure minimake_result where
  ok : Bool
  message : String
  context : String
deriving DecidableEq

/-- The shared `minimake_result_ok` constant. -/
def minimake_result_ok : minimake_result :=
  { ok := true, message := "success", context := "no context" }

/-- `minimake_rule`: target, dependency and command spans.  In C the
dependency and command fields are fixed arrays (`dependencies[64]`,
`commands[32]`) with separate counters; here they are the lists of
entries below the counters. -/
structure minimake_rule where
  target : List Char
  dependencies : List (List Char)
  commands : List (List Char)
deriving DecidableEq

/-- A zero-initialized `minimake_rule` (what reading the zeroed slack of
the rules allocation yields). -/
def minimake_rule_zero : minimake_rule :=
  { target := [], dependencies := [], commands := [] }

/-- Size of the `commands` array in the C `minimake_rule` struct
(`mm_sv commands[32]`).  Note that `minimake_parse` guards the command
count against 128, not against this declared capacity. -/
def commands_array_size : Nat := 32

/-- `tokens[i]` as the parser reads it: a real token below `n_tokens`,
and zero-initialized memory beyond (the token buffer is zeroed on
allocation and `i` never exceeds `n_tokens` by more than the slack). -/
def getTok (ts : List minimake_token) (i : Nat) : minimake_token :=
  ts.getD i minimake_token_zero

/-- `tok_expect` (minimake.c lines 400-411): `none` models the null
string view returned when `i` is out of bounds or the token type does
not match; on success the parser advances `i` by one. -/
def tok_expect (ts : List minimake_token) (i : Nat) (ty : minimake_token_type) : Option (List Char) :=
  if ts.length ≤ i then none
  else if (getTok ts i).type = ty then some (getTok ts i).text else none

/-- The token-type names used in error messages
(`minimake_token_type_str`). -/
def minimake_token_type_str : minimake_token_type → String
  | minimake_token_type.word => "word"
  | minimake_token_type.colon => "colon"
  | minimake_token_type.newline => "newline"
  | minimake_token_type.command => "command"

/-- The `MINIMAKE_ERR_EXPECTED` macro (minimake.c lines 414-430): builds
the parse error text, with the end-of-file variant when the token read
is the zeroed out-of-bounds token (its `line` is 0). -/
def minimake_err_expected (makefile : String) (tok : minimake_token) (expected : String) : String :=
  if tok.line = 0 then
    makefile ++ ": unexpected end of file, expected " ++ expected
  else
    makefile ++ ":" ++ toString tok.line ++ ":" ++ toString tok.column ++ ": expected "
      ++ expected ++ ", got " ++ minimake_token_type_str tok.type ++ ": \"" ++ String.mk tok.text ++ "\""

/-- What `minimake_parse` leaves in the session: the result it returns and
the rule table (`m->rules` up to `m->n_rules`).  On error the table is
whatever had been built so far - the C cleanup frees only the tokens. -/
structure minimake_parse_out where
  res : minimake_result
  rules : List minimake_rule
deriving DecidableEq

/-- The blank-line skip at the top of each parse iteration:
`while (tokens[i].type == MINIMAKE_TOK_NEWLINE && i < n_tokens) ++i;`
(reading `tokens[n_tokens]` yields the zero token, whose type is WORD,
so the bound check is equivalent to stopping at `n_tokens`). -/
def skipNewlines (ts : List minimake_token) : Nat → Nat → Nat
  | 0, i => i
  | Nat.succ fuel, i =>
    if i < ts.length then
      if (getTok ts i).type = minimake_token_type.newline then skipNewlines ts fuel (i + 1) else i
    else i

/-- The dependency loop of `minimake_parse` (lines 487-495): consume WORD
tokens, failing at the 65th (`n_dependencies == 64`). -/
def parseDeps (ts : List minimake_token) : Nat → Nat → List (List Char) →
    minimake_result ⊕ (List (List Char) × Nat)
  | 0, i, acc => Sum.inr (acc, i)
  | Nat.succ fuel, i, acc =>
    if i < ts.length then
      if (getTok ts i).type = minimake_token_type.word then
        if acc.length = 64 then
          Sum.inl { ok := false, message := "too many dependencies", context := "no context" }
        else parseDeps ts fuel (i + 1) (acc ++ [(getTok ts i).text])
      else Sum.inr (acc, i)
    else Sum.inr (acc, i)

/-- The command loop of `minimake_parse` (lines 509-523): consume COMMAND
tokens, failing at the 129th (`n_commands == 128`); each command's
trailing NEWLINE is consumed if present and its absence is ignored.
(The null-data re-check after `tok_expect` in the C loop cannot fire,
because the loop guard already established the token type.) -/
def parseCmds (ts : List minimake_token) : Nat → Nat → List (List Char) →
    minimake_result ⊕ (List (List Char) × Nat)
  | 0, i, acc => Sum.inr (acc, i)
  | Nat.succ fuel, i, acc =>
    if i < ts.length then
      if (getTok ts i).type = minimake_token_type.command then
        if acc.length = 128 then
          Sum.inl { ok := false, message := "too many commands", context := "no context" }
        else
          let text := (getTok ts i).text
          let j := match tok_expect ts (i + 1) minimake_token_type.newline with
            | some _ => i + 2
            | none => i + 1
          parseCmds ts fuel j (acc ++ [text])
      else Sum.inr (acc, i)
    else Sum.inr (acc, i)

/-- The per-recipe loop of `minimake_parse` (lines 450-524).  Each
iteration: skip blank lines, stop if the tokens are exhausted, then
expect target WORD, COLON, dependencies, NEWLINE, reject an immediate
second NEWLINE ("expected command(s)"), and read the command block.  On
error the loop stops and the rules accumulated so far stay in the
table.  The fuel only bounds the recursion; every iteration consumes at
least the target token. -/
def parseLoop (label : String) (ts : List minimake_token) : Nat → Nat → List minimake_rule →
    minimake_parse_out
  | 0, _, acc => { res := minimake_result_ok, rules := acc }
  | Nat.succ fuel, i0, acc =>
    let i := skipNewlines ts (ts.length + 1) i0
    if ts.length ≤ i then { res := minimake_result_ok, rules := acc }
    else
      match tok_expect ts i minimake_token_type.word with
      | none =>
        { res := { ok := false, message := minimake_err_expected label (getTok ts i) "target",
                   context := "no context" }, rules := acc }
      | some target =>
        match tok_expect ts (i + 1) minimake_token_type.colon with
        | none =>
          { res := { ok := false, message := minimake_err_expected label (getTok ts (i + 1)) "colon",
                     context := "no context" }, rules := acc }
        | some _ =>
          match parseDeps ts (ts.length + 1) (i + 2) [] with
          | Sum.inl err => { res := err, rules := acc }
          | Sum.inr (deps, i2) =>
            match tok_expect ts i2 minimake_token_type.newline with
            | none =>
              { res := { ok := false,
                         message := minimake_err_expected label (getTok ts i2) "newline",
                         context := "no context" }, rules := acc }
            | some _ =>
              if (getTok ts (i2 + 1)).type = minimake_token_type.newline then
                { res := { ok := false,
                           message := minimake_err_expected label (getTok ts (i2 + 1)) "command(s)",
                           context := "no context" }, rules := acc }
              else
                match parseCmds ts (ts.length + 1) (i2 + 1) [] with
                | Sum.inl err => { res := err, rules := acc }
                | Sum.inr (cmds, i3) =>
                  parseLoop label ts fuel i3
                    (acc ++ [{ target := target, dependencies := deps, commands := cmds }])

/-- `minimake_parse` (minimake.c lines 432-531): tokenize, then run the
recipe loop.  `none` propagates a tokenizer scan that ran past the end
of the buffer (undefined behaviour in C); `size` is passed through to
the tokenizer, which ignores it. -/
def minimake_parse (label : String) (buffer : List Char) (size : Nat) : Option minimake_parse_out :=
  match minimake_tokenize buffer size with
  | none => none
  | some ts => some (parseLoop label ts (ts.length + 1) 0 [])

/-- The inner lookup of `minimake_resolve` (lines 562-585): walk the whole
rule table in declaration order and collect the dependencies of EVERY
rule whose target equals `name` (the C loop has no break, so rules after
the first match contribute as well). -/
def expandAll : List minimake_rule → List Char → List (List Char)
  | [], _ => []
  | r :: rs, name =>
    (if r.target = name then r.dependencies else []) ++ expandAll rs name

/-- The worklist loop of `minimake_resolve` (lines 561-586): index `i`
walks the chain while the chain grows at the back.  The fuel models the
allocation budget: the C loop grows the chain without bound on cyclic
tables until allocation fails, and `none` is that failure. -/
def resolveLoop (rules : List minimake_rule) : Nat → List (List Char) → Nat → Option (List (List Char))
  | 0, chain, i => if i < chain.length then none else some chain
  | Nat.succ fuel, chain, i =>
    if i < chain.length then
      resolveLoop rules fuel (chain ++ expandAll rules (chain.getD i [])) (i + 1)
    else some chain

/-- `minimake_resolve` (minimake.c lines 533-602): seed the chain with the
requested target and expand breadth-first.  A name with no rule simply
contributes nothing; the only failure is exhausting `fuel` (allocation). -/
def minimake_resolve (rules : List minimake_rule) (target : List Char) (fuel : Nat) :
    Option (List (List Char)) :=
  resolveLoop rules fuel [target] 0

/-- The persistent command buffer threaded through `minimake_make` and
`minimake_execute_chain` (`char** cmd`, `size_t* cmd_capacity`):
capacity and current contents (always `cap` bytes). -/
structure CmdBuf where
  cap : Nat
  buf : List Char
deriving DecidableEq

/-- One command write (minimake.c lines 629-636): grow the buffer to
exactly `size + 1` zeroed bytes when too small, then `memcpy` the
command WITHOUT writing a terminating NUL.  The second component is the
C string `system` actually receives: the buffer's bytes up to the first
NUL, which can retain the tail of a longer earlier command. -/
def writeCmd (st : CmdBuf) (c : List Char) : CmdBuf × List Char :=
  if st.cap < c.length + 1 then
    (⟨c.length + 1, c ++ [mm_nul]⟩, (c ++ [mm_nul]).takeWhile (fun x => x ≠ mm_nul))
  else
    (⟨st.cap, c ++ st.buf.drop c.length⟩,
     (c ++ st.buf.drop c.length).takeWhile (fun x => x ≠ mm_nul))

/-- The shell collaborator in which every command exits with status 0. -/
def shell0 : List Char → Int := fun _ => 0

/-- Result of `minimake_make` / `minimake_execute_chain` in the model:
the C return value, the command lines handed to the shell in order
(instrumentation), and the final command buffer. -/
structure mm_out where
  res : minimake_result
  ran : List (List Char)
  buf : CmdBuf
deriving DecidableEq

/-- Outcome of the command loop inside `minimake_make` for one rule:
`err = none` when every command exited 0. -/
structure mm_cmds_out where
  err : Option minimake_result
  ran : List (List Char)
  buf : CmdBuf
deriving DecidableEq

/-- The command loop of `minimake_make` (lines 628-641): write each
command into the shared buffer, run it, and stop at the first non-zero
exit status with `command "<text>" failed` (the message quotes the
rule's stored command span, not the buffer). -/
def runCmds (shell : List Char → Int) : List (List Char) → CmdBuf → mm_cmds_out
  | [], st => { err := none, ran := [], buf := st }
  | c :: cs, st =>
    let w := writeCmd st c
    if shell w.2 = 0 then
      let rest := runCmds shell cs w.1
      { err := rest.err, ran := w.2 :: rest.ran, buf := rest.buf }
    else
      { err := some { ok := false, message := "command \"" ++ String.mk c ++ "\" failed",
                      context := "command" },
        ran := [w.2], buf := w.1 }

/-- The rule scan of `minimake_make` (lines 624-643): the loop has no
break, so the commands of EVERY rule whose target matches are run, in
declaration order; `found` records whether any rule matched. -/
def makeGo (name : List Char) (shell : List Char → Int) :
    List minimake_rule → CmdBuf → Bool → mm_out
  | [], st, found =>
    if found then { res := minimake_result_ok, ran := [], buf := st }
    else
      { res := { ok := false, message := "no rule to make \"" ++ String.mk name ++ "\"",
                 context := "no context" },
        ran := [], buf := st }
  | r :: rs, st, found =>
    if r.target = name then
      let ro := runCmds shell r.commands st
      match ro.err with
      | some e => { res := e, ran := ro.ran, buf := ro.buf }
      | none =>
        let rest := makeGo name shell rs ro.buf true
        { res := rest.res, ran := ro.ran ++ rest.ran, buf := rest.buf }
    else makeGo name shell rs st found

/-- `minimake_make` (minimake.c lines 622-649). -/
def minimake_make (rules : List minimake_rule) (name : List Char) (shell : List Char → Int)
    (st : CmdBuf) : mm_out :=
  makeGo name shell rules st false

/-- `PATH_MAX` on the target platform (linux/limits.h). -/
def PATH_MAX : Nat := 4096

/-- The executor's first-match rule lookup in the staleness branch
(lines 693-722): this loop, unlike resolve/make, breaks after the first
rule whose target matches. -/
def firstMatch : List minimake_rule → List Char → Option minimake_rule
  | [], _ => none
  | r :: rs, name => if r.target = name then some r else firstMatch rs name

/-- Outcome of the dependency staleness scan for one existing target. -/
inductive minimake_dep_out where
  | clean : minimake_dep_out
  | fail : minimake_result → List (List Char) → CmdBuf → minimake_dep_out
  | rebuilt : mm_out → minimake_dep_out
deriving DecidableEq

/-- The dependency scan of `minimake_execute_chain` (lines 697-720) for
chain index `i` whose target exists with mtime `mt` and whose first
matching rule has dependency list `ds`.  Faithful quirk: the path-length
check on line 698 reads `m->rules[i]` - the CHAIN index, not the
matched rule index - so it consults an unrelated rule's dependency
spans (or the zeroed slack of the rules allocation).  A dependency whose
`stat` fails is the internal-consistency error; the first dependency
strictly newer than the target re-runs the rule via `minimake_make`
(on failure the result's context becomes "rebuild due to mtime"). -/
def depScan (rules : List minimake_rule) (fs : List Char → Option Int) (shell : List Char → Int)
    (i : Nat) (name : List Char) (mt : Int) (st : CmdBuf) :
    List (List Char) → Nat → minimake_dep_out
  | [], _ => minimake_dep_out.clean
  | d :: ds, k =>
    let wrong := ((rules.getD i minimake_rule_zero).dependencies).getD k []
    if PATH_MAX ≤ wrong.length then
      minimake_dep_out.fail { ok := false, message := "path too long", context := "dependency" } [] st
    else
      match fs d with
      | none =>
        minimake_dep_out.fail
          { ok := false,
            message := "dependency not satisfied when it should be guaranteed, is something else modifying the filesystem?",
            context := "dependency" } [] st
      | some dmt =>
        if mt < dmt then
          let mo := minimake_make rules name shell st
          if mo.res.ok then minimake_dep_out.rebuilt mo
          else
            minimake_dep_out.fail
              { ok := mo.res.ok, message := mo.res.message, context := "rebuild due to mtime" }
              mo.ran mo.buf
        else depScan rules fs shell i name mt st ds (k + 1)

/-- The walk of `minimake_execute_chain` (minimake.c lines 658-725),
processing chain indices `i-1, i-2, ..., 0` (the C walks from the last
index down).  Faithful quirk on the missing-file path (lines 677-681):
when the rule's commands all succeed but the path still does not exist,
the C code writes the "rule ... should have created ..." error into the
dead local `make_result` and jumps to cleanup, so the function returns
`result`, which still holds the OK value - the walk stops and reports
success. -/
def execLoop (rules : List minimake_rule) (chain : List (List Char)) (fs : List Char → Option Int)
    (shell : List Char → Int) : Nat → CmdBuf → mm_out
  | 0, st => { res := minimake_result_ok, ran := [], buf := st }
  | Nat.succ i, st =>
    let name := chain.getD i []
    if PATH_MAX ≤ name.length then
      { res := { ok := false, message := "path too long", context := "target" }, ran := [], buf := st }
    else
      match fs name with
      | none =>
        let mo := minimake_make rules name shell st
        if mo.res.ok then
          match fs name with
          | none => { res := minimake_result_ok, ran := mo.ran, buf := mo.buf }
          | some _ =>
            let rest := execLoop rules chain fs shell i mo.buf
            { res := rest.res, ran := mo.ran ++ rest.ran, buf := rest.buf }
        else mo
      | some mt =>
        match firstMatch rules name with
        | none => execLoop rules chain fs shell i st
        | some r =>
          match depScan rules fs shell i name mt st r.dependencies 0 with
          | minimake_dep_out.clean => execLoop rules chain fs shell i st
          | minimake_dep_out.fail res ran buf => { res := res, ran := ran, buf := buf }
          | minimake_dep_out.rebuilt mo =>
            let rest := execLoop rules chain fs shell i mo.buf
            { res := rest.res, ran := mo.ran ++ rest.ran, buf := rest.buf }

/-- `minimake_execute_chain` (minimake.c lines 651-731): walk the chain
leaves-first with an initially empty command buffer. -/
def minimake_execute_chain (rules : List minimake_rule) (chain : List (List Char))
    (fs : List Char → Option Int) (shell : List Char → Int) : mm_out :=
  execLoop rules chain fs shell chain.length ⟨0, []⟩

/-- The sequence of C strings `system` receives when the command lines
`cs` are written through the shared buffer starting from state `st`
(the pure replay of `writeCmd`). -/
def physRun (st : CmdBuf) : List (List Char) → List (List Char)
  | [] => []
  | c :: cs => (writeCmd st c).2 :: physRun (writeCmd st c).1 cs

/-- The command-buffer state after writing the command lines `cs`. -/
def physEnd (st : CmdBuf) : List (List Char) → CmdBuf
  | [] => st
  | c :: cs => physEnd (writeCmd st c).1 cs

/-- The command lines of every rule declaring `name`, in declaration
order: the logical command sequence `minimake_make` feeds through the
shared buffer (its rule scan has no break). -/
def expandAllCmds : List minimake_rule → List Char → List (List Char)
  | [], _ => []
  | r :: rs, name =>
    (if r.target = name then r.commands else []) ++ expandAllCmds rs name

/-- Whether dependency `d` is strictly newer on disk than mtime `mt`
(the executor's `st.st_mtim.tv_sec < dep_st.st_mtim.tv_sec` test). -/
def newerB (fs : List Char → Option Int) (mt : Int) (d : List Char) : Bool :=
  match fs d with
  | none => false
  | some dmt => decide (mt < dmt)

/-- Chain index `i` is stale: its path exists, some rule is found for it
(the executor's first-match scan), and that rule has a dependency
strictly newer than the target. -/
def staleAt (rules : List minimake_rule) (chain : List (List Char)) (fs : List Char → Option Int)
    (i : Nat) : Bool :=
  match fs (chain.getD i []) with
  | none => false
  | some mt =>
    match firstMatch rules (chain.getD i []) with
    | none => false
    | some r => r.dependencies.any (newerB fs mt)

/-- The command lines the executor's walk over indices `i-1, ..., 0`
hands to `minimake_make`: for each stale index, the commands of every
rule declaring that name (the order of the walk: highest index first). -/
def staleCmds (rules : List minimake_rule) (chain : List (List Char))
    (fs : List Char → Option Int) : Nat → List (List Char)
  | 0 => []
  | Nat.succ i =>
    (if staleAt rules chain fs i then expandAllCmds rules (chain.getD i []) else [])
      ++ staleCmds rules chain fs i

/-- Hypotheses of the idempotence claim: every path named by the chain is
shorter than `PATH_MAX` and exists on disk, every dependency of a rule
declaring a chain entry exists on disk, and every dependency span in
the table is shorter than `PATH_MAX`. -/
@[reducible] def execReady (rules : List minimake_rule) (chain : List (List Char))
    (fs : List Char → Option Int) : Prop :=
  (∀ e ∈ chain, e.length < PATH_MAX ∧ (fs e).isSome = true ∧
    ∀ r ∈ rules, r.target = e → ∀ d ∈ r.dependencies, (fs d).isSome = true) ∧
  (∀ r ∈ rules, ∀ d ∈ r.dependencies, d.length < PATH_MAX)

/-- Rules with two declarations of the same target `X` (counterexample
table for the first-match-wins claim). -/
def c1_rules : List minimake_rule :=
  [⟨"X".data, ["a".data], ["ca".data]⟩, ⟨"X".data, ["b".data], ["cb".data]⟩]

/-- A rule whose command exits 0 but does not create the target file. -/
def c2_rules : List minimake_rule := [⟨"t".data, [], ["make-t".data]⟩]

/-- The chain for the single target `t`. -/
def c2_chain : List (List Char) := ["t".data]

/-- A filesystem on which no path exists. -/
def c2_fs : List Char → Option Int := fun _ => none

/-- A makefile text whose single rule carries 33 command lines. -/
def c3_buf : List Char := "a:\n".data ++ (List.replicate 33 ("\tx\n".data)).flatten ++ [mm_nul]

/-- A makefile whose first rule parses completely and whose second rule
dies at end of file ("expected newline"). -/
def c4_buf : List Char := cstr "a:\n\tc\nb:"

/-- The rule table `A: B`, `B: C D` of the resolver-expansion claim. -/
def c7_rules : List minimake_rule :=
  [⟨"A".data, ["B".data], []⟩, ⟨"B".data, ["C".data, "D".data], []⟩]

/-- Table for the executor witness: `A` depends on `B` and is rebuilt by
the command `cc`. -/
def c9_rules : List minimake_rule := [⟨"A".data, ["B".data], ["cc".data]⟩]

/-- Chain resolved for target `A` over `c9_rules`. -/
def c9_chain : List (List Char) := ["A".data, "B".data]

/-- A filesystem where `A` (mtime 0) is older than its dependency `B`
(mtime 5). -/
def c9_fs : List Char → Option Int :=
  fun p => if p = "A".data then some 0 else if p = "B".data then some 5 else none

/-- A buffer with an embedded NUL inside a tab-command line. -/
def c10_buf1 : List Char := ['\t', 'a', mm_nul, 'b', '\n', mm_nul]

/-- Same bytes before the first NUL as `c10_buf1`, different after it. -/
def c10_buf2 : List Char := ['\t', 'a', mm_nul, 'c', '\n', mm_nul]

lemma physRun_append (a : List (List Char)) : ∀ (st : CmdBuf) (b : List (List Char)),
    physRun st (a ++ b) = physRun st a ++ physRun (physEnd st a) b := by
  induction a with
  | nil => intro st b; simp [physRun, physEnd]
  | cons c cs ih => intro st b; simp [physRun, physEnd, ih]

lemma physEnd_append (a : List (List Char)) : ∀ (st : CmdBuf) (b : List (List Char)),
    physEnd st (a ++ b) = physEnd (physEnd st a) b := by
  induction a with
  | nil => intro st b; simp [physEnd]
  | cons c cs ih => intro st b; simp [physEnd, ih]

lemma runCmds_shell0 (cs : List (List Char)) : ∀ st : CmdBuf,
    runCmds shell0 cs st = { err := none, ran := physRun st cs, buf := physEnd st cs } := by
  induction cs with
  | nil => intro st; simp [runCmds, physRun, physEnd]
  | cons c cs ih => intro st; simp [runCmds, shell0, physRun, physEnd, ih]

lemma makeGo_shell0 (name : List Char) (rules : List minimake_rule) : ∀ (st : CmdBuf) (found : Bool),
    makeGo name shell0 rules st found =
      { res := if found || rules.any (fun r => decide (r.target = name)) then minimake_result_ok
               else { ok := false, message := "no rule to make \"" ++ String.mk name ++ "\"",
                      context := "no context" },
        ran := physRun st (expandAllCmds rules name),
        buf := physEnd st (expandAllCmds rules name) } := by
  induction rules with
  | nil =>
    intro st found
    cases found <;> simp [makeGo, expandAllCmds, physRun, physEnd]
  | cons r rs ih =>
    intro st found
    by_cases h : r.target = name
    · simp [makeGo, h, runCmds_shell0, ih, expandAllCmds, physRun_append, physEnd_append]
    · simp [makeGo, h, ih, expandAllCmds]

lemma expandAll_eq_filter (rules : List minimake_rule) (name : List Char) :
    expandAll rules name =
      (rules.filter (fun r => decide (r.target = name))).flatMap minimake_rule.dependencies := by
  induction rules with
  | nil => simp [expandAll]
  | cons r rs ih =>
    by_cases h : r.target = name
    · simp [expandAll, h, List.filter_cons, ih]
    · simp [expandAll, h, List.filter_cons, ih]

lemma expandAllCmds_eq_filter (rules : List minimake_rule) (name : List Char) :
    expandAllCmds rules name =
      (rules.filter (fun r => decide (r.target = name))).flatMap minimake_rule.commands := by
  induction rules with
  | nil => simp [expandAllCmds]
  | cons r rs ih =>
    by_cases h : r.target = name
    · simp [expandAllCmds, h, List.filter_cons, ih]
    · simp [expandAllCmds, h, List.filter_cons, ih]

lemma firstMatch_mem (name : List Char) : ∀ (rules : List minimake_rule) (r : minimake_rule),
    firstMatch rules name = some r → r ∈ rules ∧ r.target = name := by
  intro rules
  induction rules with
  | nil => intro r h; simp [firstMatch] at h
  | cons q qs ih =>
    intro r h
    by_cases hq : q.target = name
    · simp [firstMatch, hq] at h
      exact ⟨by simp [h.symm], h ▸ hq⟩
    · simp [firstMatch, hq] at h
      rcases ih r h with ⟨hmem, ht⟩
      exact ⟨List.mem_cons_of_mem q hmem, ht⟩

lemma getD_mem_or {α : Type} (d : α) : ∀ (l : List α) (i : Nat), l.getD i d ∈ l ∨ l.getD i d = d := by
  intro l
  induction l with
  | nil => intro i; right; simp [List.getD]
  | cons x xs ih =>
    intro i
    cases i with
    | zero => left; simp [List.getD]
    | succ j =>
      rcases ih j with h | h
      · left; simpa [List.getD] using List.mem_cons_of_mem x (by simpa [List.getD] using h)
      · right; simpa [List.getD] using h

lemma getD_short (l : List (List Char)) (hl : ∀ x ∈ l, x.length < PATH_MAX) (k : Nat) :
    (l.getD k []).length < PATH_MAX := by
  rcases getD_mem_or [] l k with h | h
  · exact hl _ h
  · rw [h]; decide

lemma getD_mem_of_lt {α : Type} (d : α) (l : List α) (i : Nat) (h : i < l.length) :
    l.getD i d ∈ l := by
  rw [List.getD_eq_getElem l d h]
  exact List.getElem_mem h

lemma depScan_ready (rules : List minimake_rule) (fs : List Char → Option Int) (i : Nat)
    (name : List Char) (mt : Int) (st : CmdBuf)
    (hw : ∀ k, (((rules.getD i minimake_rule_zero).dependencies).getD k []).length < PATH_MAX) :
    ∀ (ds : List (List Char)) (k : Nat), (∀ d ∈ ds, (fs d).isSome = true) →
      depScan rules fs shell0 i name mt st ds k =
        (if ds.any (newerB fs mt) then
          (if (minimake_make rules name shell0 st).res.ok then
            minimake_dep_out.rebuilt (minimake_make rules name shell0 st)
          else
            minimake_dep_out.fail
              { ok := (minimake_make rules name shell0 st).res.ok,
                message := (minimake_make rules name shell0 st).res.message,
                context := "rebuild due to mtime" }
              (minimake_make rules name shell0 st).ran (minimake_make rules name shell0 st).buf)
        else minimake_dep_out.clean) := by
  intro ds
  induction ds with
  | nil => intro k h; simp [depScan]
  | cons d ds ih =>
    intro k h
    have hd : (fs d).isSome = true := h d (List.mem_cons_self d ds)
    rcases Option.isSome_iff_exists.mp hd with ⟨dmt, hdmt⟩
    have hwk := hw k
    simp only [depScan]
    rw [if_neg (by omega)]
    rw [hdmt]
    by_cases hlt : mt < dmt
    · simp [List.any_cons, newerB, hdmt, hlt]
    · have hnb : newerB fs mt d = false := by simp [newerB, hdmt, hlt]
      simp only [List.any_cons, hnb, Bool.false_or]
      rw [if_neg hlt]
      exact ih (k + 1) (fun x hx => h x (List.mem_cons_of_mem d hx))

lemma execLoop_ready (rules : List minimake_rule) (chain : List (List Char))
    (fs : List Char → Option Int) (h : execReady rules chain fs) :
    ∀ i, i ≤ chain.length → ∀ st : CmdBuf,
      execLoop rules chain fs shell0 i st =
        { res := minimake_result_ok,
          ran := physRun st (staleCmds rules chain fs i),
          buf := physEnd st (staleCmds rules chain fs i) } := by
  intro i
  induction i with
  | zero => intro _ st; simp [execLoop, staleCmds, physRun, physEnd]
  | succ i ih =>
    intro hle st
    have hi : i < chain.length := by omega
    have hmem : chain.getD i [] ∈ chain := getD_mem_of_lt [] chain i hi
    obtain ⟨hlen, hsome, hdeps⟩ := h.1 _ hmem
    rcases Option.isSome_iff_exists.mp hsome with ⟨mt, hmt⟩
    cases hfm : firstMatch rules (chain.getD i []) with
    | none =>
      have hstale : staleAt rules chain fs i = false := by
        simp only [staleAt, hmt, hfm]
      simp only [execLoop]
      rw [if_neg (by omega)]
      simp only [hmt, hfm]
      rw [ih (by omega) st]
      simp [staleCmds, hstale]
    | some r =>
      obtain ⟨hrmem, hrt⟩ := firstMatch_mem (chain.getD i []) rules r hfm
      have hw : ∀ k, (((rules.getD i minimake_rule_zero).dependencies).getD k []).length < PATH_MAX := by
        intro k
        rcases getD_mem_or minimake_rule_zero rules i with hm | hz
        · exact getD_short _ (fun x hx => h.2 _ hm x hx) k
        · rw [hz]
          show (([] : List (List Char)).getD k []).length < PATH_MAX
          cases k <;> simp [List.getD, PATH_MAX]
      have hdall : ∀ d ∈ r.dependencies, (fs d).isSome = true := hdeps r hrmem hrt
      have hds := depScan_ready rules fs i (chain.getD i []) mt st hw r.dependencies 0 hdall
      have hmk := makeGo_shell0 (chain.getD i []) rules st false
      have hmatch : rules.any (fun q => decide (q.target = chain.getD i [])) = true :=
        List.any_eq_true.mpr ⟨r, hrmem, by simp [hrt]⟩
      have hmake : minimake_make rules (chain.getD i []) shell0 st =
          { res := minimake_result_ok,
            ran := physRun st (expandAllCmds rules (chain.getD i [])),
            buf := physEnd st (expandAllCmds rules (chain.getD i [])) } := by
        rw [minimake_make, hmk, hmatch]
        simp
      rw [hmake] at hds
      by_cases hany : r.dependencies.any (newerB fs mt) = true
      · have hstale : staleAt rules chain fs i = true := by
          simp only [staleAt, hmt, hfm]
          exact hany
        rw [hany] at hds
        simp only [minimake_result_ok, if_true] at hds
        simp only [execLoop]
        rw [if_neg (by omega)]
        simp only [hmt, hfm, hds]
        rw [ih (by omega)]
        simp [staleCmds, hstale, physRun_append, physEnd_append]
      · have hanyf : r.dependencies.any (newerB fs mt) = false := by
          simpa using hany
        have hstale : staleAt rules chain fs i = false := by
          simp only [staleAt, hmt, hfm]
          exact hanyf
        rw [hanyf] at hds
        simp only [if_false] at hds
        simp only [execLoop]
        rw [if_neg (by omega)]
        simp only [hmt, hfm, hds]
        rw [ih (by omega) st]
        simp [staleCmds, hstale]

lemma staleCmds_nil (rules : List minimake_rule) (chain : List (List Char))
    (fs : List Char → Option Int) :
    ∀ n, (∀ i, i < n → staleAt rules chain fs i = false) → staleCmds rules chain fs n = [] := by
  intro n
  induction n with
  | zero => intro _; simp [staleCmds]
  | succ n ih =>
    intro h
    simp [staleCmds, h n (by omega), ih (fun i hi => h i (by omega))]

/-- Claim C1 (counterexample): first-match-wins is false.  With two rules
both declaring target `X` (`X: a` with command `ca`, then `X: b` with
command `cb`), resolving `X` yields `[X, a, b]` - the second rule's
dependency `b` is not ignored - and `minimake_make` hands both `ca` and
`cb` to the shell, not just the first rule's command. -/
theorem c1_counterexample :
    minimake_resolve c1_rules ("X".data) 4 = some ["X".data, "a".data, "b".data]
    ∧ (["X".data, "a".data, "b".data] : List (List Char)) ≠ ["X".data, "a".data]
    ∧ (minimake_make c1_rules ("X".data) shell0 ⟨0, []⟩).ran = ["ca".data, "cb".data]
    ∧ (["ca".data, "cb".data] : List (List Char)) ≠ ["ca".data] := by decide

/-- Claim C1 (amended): when more than one rule declares the same target
name, dependency resolution appends the dependencies of EVERY rule
declaring that name, in declaration order, and command execution runs
the commands of EVERY rule declaring that name, in declaration order
(`minimake_make` succeeds exactly when at least one rule matches); no
declaring rule is ignored. -/
theorem c1_all_declaring_rules_used (rules : List minimake_rule) (name : List Char) (st : CmdBuf) :
    expandAll rules name =
      (rules.filter (fun r => decide (r.target = name))).flatMap minimake_rule.dependencies
    ∧ (minimake_make rules name shell0 st).ran =
        physRun st ((rules.filter (fun r => decide (r.target = name))).flatMap minimake_rule.commands)
    ∧ ((minimake_make rules name shell0 st).res.ok = true ↔ ∃ r ∈ rules, r.target = name) := by
  refine ⟨expandAll_eq_filter rules name, ?_, ?_⟩
  · rw [minimake_make, makeGo_shell0]
    simp only [expandAllCmds_eq_filter]
  · rw [minimake_make, makeGo_shell0]
    simp only [Bool.false_or]
    by_cases hm : rules.any (fun r => decide (r.target = name)) = true
    · rw [if_pos hm]
      simp only [minimake_result_ok]
      constructor
      · intro _
        rcases List.any_eq_true.mp hm with ⟨r, hr, hd⟩
        exact ⟨r, hr, by simpa using hd⟩
      · intro _; trivial
    · rw [if_neg hm]
      constructor
      · intro hok
        exact absurd hok (by simp)
      · rintro ⟨r, hr, ht⟩
        exact absurd (List.any_eq_true.mpr ⟨r, hr, by simpa using ht⟩) hm

/-- Claim C2 (code bug): chain entry `t` does not exist, its rule's only
command exits 0 but does not create `t`; the executor nevertheless
returns SUCCESS.  minimake.c line 679 assigns the constructed
"rule ... should have created ..." error to the dead local `make_result`
instead of `result` and jumps to cleanup, so the OK result is returned
(and the rest of the walk is silently skipped). -/
theorem c2_phantom_success :
    (minimake_execute_chain c2_rules c2_chain c2_fs shell0).res = minimake_result_ok
    ∧ (minimake_execute_chain c2_rules c2_chain c2_fs shell0).ran = ["make-t".data] := by decide

/-- Claim C3 (code bug): a rule with 33 command lines parses successfully
and all 33 commands are recorded - the "too many commands" guard fires
only at 128 - yet the C struct's `commands` array holds only
`commands_array_size = 32` entries, so storing the 33rd command writes
past the end of the array (undefined behaviour) long before the guard
can fire. -/
theorem c3_command_capacity_exceeded :
    minimake_parse "Makefile" c3_buf 102 =
      some { res := minimake_result_ok,
             rules := [{ target := "a".data, dependencies := [],
                         commands := List.replicate 33 ("x".data) }] }
    ∧ commands_array_size < 33 := by decide

/-- Claim C4 (counterexample): parsing is not atomic.  On the input
`"a:\n\tc\nb:"` parse returns an error, yet the session's rule table has
rule count 1, not 0. -/
theorem c4_counterexample :
    (minimake_parse "Makefile" c4_buf 8).map (fun out => (out.res.ok, out.rules.length)) =
      some (false, 1)
    ∧ (1 : Nat) ≠ 0 := by decide

/-- Claim C4 (amended): a parse error does not discard partial state: the
rules completed before the error remain in the table.  Parsing
`"a:\n\tc\nb:"` fails with the end-of-file error while reading the second
rule and leaves exactly the completed first rule `(a, [], [c])` in
the table. -/
theorem c4_error_keeps_completed_rules :
    minimake_parse "Makefile" c4_buf 8 =
      some { res := { ok := false,
                      message := "Makefile" ++ ": unexpected end of file, expected newline",
                      context := "no context" },
             rules := [{ target := "a".data, dependencies := [], commands := ["c".data] }] } := by
  decide

/-- Claim C5: the sample text parses into exactly 2 rules: rule 0 with
target `simple_rule`, single dependency `test-dep` and single command
`touch simple_rule`; rule 1 with target `test-dep`, dependencies
`foo`, `bar` in that order and zero commands. -/
theorem c5_parser_acceptance :
    minimake_parse "Makefile" (cstr "simple_rule: test-dep\n\ttouch simple_rule\ntest-dep: foo bar\n") 55 =
      some { res := minimake_result_ok,
             rules := [{ target := "simple_rule".data, dependencies := ["test-dep".data],
                         commands := ["touch simple_rule".data] },
                       { target := "test-dep".data, dependencies := ["foo".data, "bar".data],
                         commands := [] }] } := by decide

/-- Claim C6: parsing `"target:\n\n"` fails, and the error message cites
"expected command(s)" (the message is exactly the position-prefixed
text with that phrase in the middle). -/
theorem c6_missing_command_error :
    minimake_parse "Makefile" (cstr "target:\n\n") 9 =
      some { res := { ok := false,
                      message := "Makefile:2:1: " ++ "expected command(s)" ++ ", got newline: \"\n\"",
                      context := "no context" },
             rules := [] } := by decide

/-- Claim C7: over the table `A: B`, `B: C D`, resolving `A` succeeds and
yields the chain `[A, B, C, D]` in exactly that order, even though the
names `C` and `D` have no rule in the table (a missing rule is not a
resolution failure; the model's only failure mode is the allocation
fuel). -/
theorem c7_resolver_expansion :
    minimake_resolve c7_rules ("A".data) 5 =
      some ["A".data, "B".data, "C".data, "D".data]
    ∧ firstMatch c7_rules ("C".data) = none
    ∧ firstMatch c7_rules ("D".data) = none := by decide

/-- Claim C8: the four token-sequence facts: `"target:\n"` gives exactly
Word, Colon, Newline; `"target: dep\n\tcmd\n"` gives exactly Word,
Colon, Word, Newline, Command, Newline; `":\n\n\n:::"` gives exactly
Colon, Newline, Newline, Newline, Colon, Colon, Colon; and
`"target: # comment\n"` produces the same token sequence (kinds and
span texts) as `"target:\n"`. -/
theorem c8_token_sequences :
    ((minimake_tokenize (cstr "target:\n") 8).map (List.map (fun t => t.type)) =
      some [minimake_token_type.word, minimake_token_type.colon, minimake_token_type.newline])
    ∧ ((minimake_tokenize (cstr "target: dep\n\tcmd\n") 18).map (List.map (fun t => t.type)) =
      some [minimake_token_type.word, minimake_token_type.colon, minimake_token_type.word,
            minimake_token_type.newline, minimake_token_type.command, minimake_token_type.newline])
    ∧ ((minimake_tokenize (cstr ":\n\n\n:::") 7).map (List.map (fun t => t.type)) =
      some [minimake_token_type.colon, minimake_token_type.newline, minimake_token_type.newline,
            minimake_token_type.newline, minimake_token_type.colon, minimake_token_type.colon,
            minimake_token_type.colon])
    ∧ ((minimake_tokenize (cstr "target: # comment\n") 18).map (List.map (fun t => (t.type, t.text))) =
      (minimake_tokenize (cstr "target:\n") 8).map (List.map (fun t => (t.type, t.text)))) := by
  decide

/-- Claim C9: executor idempotence and rebuild trigger.  Under the
readiness hypotheses (every chain path shorter than `PATH_MAX` and
existing on disk, every dependency of a rule declaring a chain entry
existing, every table dependency span short), executing the chain with
an all-succeeding shell (1) returns success, (2) hands to the shell
exactly the commands of the stale chain entries - those whose rule has
a dependency strictly newer than the target - walked from the last
chain index down, and in particular (3) runs zero commands when no
entry is stale (every target's mtime at least every dependency's). -/
theorem c9_executor_idempotence (rules : List minimake_rule) (chain : List (List Char))
    (fs : List Char → Option Int) (h : execReady rules chain fs) :
    (minimake_execute_chain rules chain fs shell0).res = minimake_result_ok
    ∧ (minimake_execute_chain rules chain fs shell0).ran =
        physRun ⟨0, []⟩ (staleCmds rules chain fs chain.length)
    ∧ ((∀ i, i < chain.length → staleAt rules chain fs i = false) →
        (minimake_execute_chain rules chain fs shell0).ran = []) := by
  have hmain := execLoop_ready rules chain fs h chain.length (le_refl _) ⟨0, []⟩
  rw [minimake_execute_chain, hmain]
  refine ⟨rfl, rfl, ?_⟩
  intro hns
  rw [staleCmds_nil rules chain fs chain.length hns]
  rfl

/-- Witness for C9: the concrete instance `A: B` (command `cc`) with `A`
older than `B` satisfies the readiness hypotheses, and the theorem
applies: the run succeeds and the commands handed to the shell are the
stale entries' commands (here: `cc`, since `A` is stale). -/
theorem c9_witness :
    execReady c9_rules c9_chain c9_fs ∧
    (minimake_execute_chain c9_rules c9_chain c9_fs shell0).res = minimake_result_ok ∧
    (minimake_execute_chain c9_rules c9_chain c9_fs shell0).ran =
      physRun ⟨0, []⟩ (staleCmds c9_rules c9_chain c9_fs c9_chain.length) :=
  ⟨by decide, (c9_executor_idempotence c9_rules c9_chain c9_fs (by decide)).1,
   (c9_executor_idempotence c9_rules c9_chain c9_fs (by decide)).2.1⟩

/-- Claim C10 (counterexample): two buffers that agree on the bytes before
the first NUL (`"\ta"` in both) tokenize differently: the tab-command
scan runs to the next newline straight across the embedded NUL, so the
Command token of the first buffer contains the byte `b` that lies after
the NUL. -/
theorem c10_counterexample :
    c10_buf1.takeWhile (fun c => c ≠ mm_nul) = c10_buf2.takeWhile (fun c => c ≠ mm_nul)
    ∧ minimake_tokenize c10_buf1 6 =
        some [{ text := ['a', mm_nul, 'b'], type := minimake_token_type.command, line := 1, column := 1 },
              { text := ['\n'], type := minimake_token_type.newline, line := 1, column := 6 }]
    ∧ minimake_tokenize c10_buf1 6 ≠ minimake_tokenize c10_buf2 6 := by decide

/-- Claim C10 (amended): the tokenizer's `size` parameter has no effect on
its output, for every buffer and every pair of sizes.  But tokenization
is NOT confined to the bytes before the first NUL: a Command token
begun by a tab scans to the next newline even across NUL bytes, so
bytes after an embedded NUL can appear in the output (here the Command
token's text is `a`, NUL, `b`). -/
theorem c10_size_has_no_effect (buffer : List Char) (s1 s2 : Nat) :
    minimake_tokenize buffer s1 = minimake_tokenize buffer s2
    ∧ (minimake_tokenize c10_buf1 0).map (List.map (fun t => t.text)) =
        some [['a', mm_nul, 'b'], ['\n']] :=
  ⟨rfl, by decide⟩
